import Mathlib

/-!
Shallow embedding of the habit-tracking core of `habitflow-be`
(habit schedule service, validation service, streak service, habit service,
completion service and their repositories), together with proofs of the
behavioural claims about them.

Time model: the services are timezone-naive (the `timezone` parameter is
received but never used by the date arithmetic), so an instant is modelled
as an integer number of minutes on a single local timeline, with minute 0
at the midnight starting a Sunday.  JS `Date` arithmetic used by the code
(`setHours(h, m, 0, 0)`, `setDate(getDate() + k)`, `getDay()`, subtraction
of timestamps) then becomes plain integer arithmetic on whole days of
1440 minutes.
-/

namespace HabitFlow

/-- Calendar-day number of an instant (floor division; `/` on `Int` rounds
toward negative infinity for the positive divisor 1440, matching JS local
midnight truncation `setHours(0,0,0,0)`). -/
def dayOf (t : Int) : Int := t / 1440

/-- Midnight of the day containing `t` (`setHours(0,0,0,0)`). -/
def dayStart (t : Int) : Int := 1440 * dayOf t

/-- JS `Date.prototype.getDay`: day of week, 0 = Sunday .. 6 = Saturday. -/
def dowOf (t : Int) : Int := dayOf t % 7

/-- `setHours(hours, minutes, 0, 0)` with `hm = hours*60 + minutes`. -/
def atTime (t : Int) (hm : Int) : Int := dayStart t + hm

/-- `src/habit/entities/habit.entity.ts`: `HabitFrequencyType`. -/
inductive HabitFrequencyType
  | DAILY
  | WEEKLY
  | CUSTOM
deriving DecidableEq, Repr

/-- `src/habit/entities/habit.entity.ts`: `HabitStatus`. -/
inductive HabitStatus
  | ACTIVE
  | PAUSED
  | ARCHIVED
deriving DecidableEq, Repr

/-- The `FrequencyDetails` union (`DailyFrequencyDetails |
WeeklyFrequencyDetails | CustomFrequencyDetails`).  `unit` is kept as a
string as in the raw JSON (`'days' | 'weeks'`). -/
inductive FrequencyDetails
  | daily (time : String)
  | weekly (days : List Int) (time : String)
  | custom (count : Int) (unit : String) (time : String)
deriving DecidableEq, Repr

/-- The habit row (`habits` table / `Habit` entity). -/
structure Habit where
  id : String
  userId : String
  name : String
  description : Option String
  frequencyType : HabitFrequencyType
  frequencyDetails : FrequencyDetails
  durationMinutes : Option Int
  status : HabitStatus
  timezone : String
  nextOccurrenceAt : Option Int
  createdAt : Int
  updatedAt : Int
  deletedAt : Option Int
  version : Int
deriving DecidableEq, Repr

/-- The completion row (`habit_completions` table / `HabitCompletion`
entity).  `scheduledFor` is a `date` column, stored here as the midnight
instant of that calendar date. -/
structure HabitCompletion where
  id : String
  habitId : String
  userId : String
  completedAt : Int
  scheduledFor : Int
  notes : Option String
  createdAt : Int
  undoneAt : Option Int
deriving DecidableEq, Repr

/-! ### Time-string parsing

The schedule service parses `details.time` with
`time.split(':').map(Number)` and destructures `[hours, minutes]`.
We model the split on `':'` over the character list and digit-string
parsing; on every string accepted by the validator's `HH:mm` regex this
agrees with JS `Number`. -/

/-- `String.prototype.split(':')` over the character list. -/
def splitOnColon : List Char → List (List Char)
  | [] => [[]]
  | c :: cs =>
    if c = ':' then [] :: splitOnColon cs
    else
      match splitOnColon cs with
      | [] => [[c]]
      | p :: ps => (c :: p) :: ps

/-- Numeric value of a digit character. -/
def digitVal (c : Char) : Nat := c.toNat - '0'.toNat

/-- Parse a non-empty all-digit character list (the behaviour of JS
`Number` on the two-digit groups produced by a validated `HH:mm` string). -/
def parseNatDigits (cs : List Char) : Option Nat :=
  if cs ≠ [] ∧ cs.all Char.isDigit then
    some (cs.foldl (fun acc c => acc * 10 + digitVal c) 0)
  else none

/-- `const [hours, minutes] = details.time.split(':').map(Number)`,
returned as total minutes `hours*60 + minutes`.  `none` models the NaN
garbage produced on strings the validator would reject. -/
def parseTime (time : String) : Option Int :=
  match splitOnColon time.data with
  | hs :: ms :: _ =>
    match parseNatDigits hs, parseNatDigits ms with
    | some h, some m => some ((h : Int) * 60 + (m : Int))
    | _, _ => none
  | _ => none

/-- Structural access to `details.time`, present on every variant of the
union (the service casts `frequencyDetails` per kind; `time` exists on all
three shapes). -/
def FrequencyDetails.timeOf : FrequencyDetails → String
  | .daily time => time
  | .weekly _ time => time
  | .custom _ _ time => time

/-! ### Validation service (`habit-validation.service.ts`)

Thrown `BadRequestException`s are modelled as `Except.error` carrying the
exception message; the first violated rule throws, aborting the rest. -/

/-- The duck-typed raw parameter structure handed to `validateFrequency`
(`FrequencyDetails | Record<string, unknown>`): each field may be absent. -/
structure RawFrequencyDetails where
  days : Option (List Int) := none
  time : Option String := none
  count : Option Int := none
  unit : Option String := none
deriving DecidableEq, Repr

/-- The structural identity between a typed `FrequencyDetails` object and
the raw record shape the validator receives (same JS object). -/
def toRaw : FrequencyDetails → RawFrequencyDetails
  | .daily time => { time := some time }
  | .weekly days time => { days := some days, time := some time }
  | .custom count unit time => { count := some count, unit := some unit, time := some time }

/-- The regex `^([01]\d|2[0-3]):([0-5]\d)$`. -/
def isValidTimeFormat (time : String) : Bool :=
  match time.data with
  | [c0, c1, c2, c3, c4] =>
    (((c0 == '0' || c0 == '1') && c1.isDigit)
        || (c0 == '2' && (decide ('0' ≤ c1) && decide (c1 ≤ '3'))))
      && c2 == ':'
      && (decide ('0' ≤ c3) && decide (c3 ≤ '5'))
      && c4.isDigit
  | _ => false

/-- `validateHabitName`.  (The whitespace-only regex branch is kept even
though a whitespace-only name already fails the first check.) -/
def validateHabitName (name : String) : Except String Unit :=
  if name.trim.length = 0 then .error "Habit name is required"
  else if 100 < name.trim.length then .error "Habit name must not exceed 100 characters"
  else if 0 < name.length && name.data.all Char.isWhitespace then
    .error "Habit name cannot be whitespace only"
  else .ok ()

/-- `validateDescription` (`description && description.length > 500`). -/
def validateDescription (description : String) : Except String Unit :=
  if description ≠ "" && 500 < description.length then
    .error "Description must not exceed 500 characters"
  else .ok ()

/-- `validateDuration`. -/
def validateDuration (durationMinutes : Int) : Except String Unit :=
  if durationMinutes < 5 then .error "Duration must be at least 5 minutes"
  else if 480 < durationMinutes then .error "Duration must not exceed 480 minutes"
  else .ok ()

/-- `validateDailyFrequency` (`!details.time` is falsy for both a missing
field and the empty string). -/
def validateDailyFrequency (details : RawFrequencyDetails) : Except String Unit :=
  if details.time.getD "" = "" then .error "Time is required for daily habits"
  else if !isValidTimeFormat (details.time.getD "") then
    .error "Time must be in HH:mm format"
  else .ok ()

/-- `validateWeeklyFrequency`.  A present `days` field is always an array
of numbers here, so the `typeof day !== 'number'` guard cannot fire; the
first out-of-range day throws, modelled by `List.any`. -/
def validateWeeklyFrequency (details : RawFrequencyDetails) : Except String Unit :=
  match details.days with
  | none => .error "At least one day must be selected for weekly habits"
  | some days =>
    if days.isEmpty then .error "At least one day must be selected for weekly habits"
    else if days.any (fun day => day < 0 || 6 < day) then
      .error "Days must be numbers between 0 (Sunday) and 6 (Saturday)"
    else if details.time.getD "" = "" then .error "Time is required for weekly habits"
    else if !isValidTimeFormat (details.time.getD "") then
      .error "Time must be in HH:mm format"
    else .ok ()

/-- `validateCustomFrequency` (`!details.count` is falsy for a missing
field and for `0`, both reported as "required"). -/
def validateCustomFrequency (details : RawFrequencyDetails) : Except String Unit :=
  match details.count with
  | none => .error "Count is required for custom habits"
  | some count =>
    if count = 0 then .error "Count is required for custom habits"
    else if count < 1 || 365 < count then .error "Count must be between 1 and 365"
    else if !(details.unit.getD "" == "days" || details.unit.getD "" == "weeks") then
      .error "Unit must be \"days\" or \"weeks\""
    else if details.time.getD "" = "" then .error "Time is required for custom habits"
    else if !isValidTimeFormat (details.time.getD "") then
      .error "Time must be in HH:mm format"
    else .ok ()

/-- `validateFrequency` (an unknown kind is unrepresentable in the enum,
so the `default: throw` branch has no counterpart). -/
def validateFrequency (type : HabitFrequencyType) (details : Option RawFrequencyDetails) :
    Except String Unit :=
  match details with
  | none => .error "Frequency details are required"
  | some d =>
    match type with
    | .DAILY => validateDailyFrequency d
    | .WEEKLY => validateWeeklyFrequency d
    | .CUSTOM => validateCustomFrequency d

/-! ### Schedule service (`habit-schedule.service.ts`)

Pure date arithmetic.  `timezone` is accepted and ignored exactly as in the
source (the private helpers receive it and never read it), so it is simply
not threaded through here.  `new Date()` (the reference instant) is an
explicit `now` parameter. -/

/-- One step of JS `Array.prototype.sort((a, b) => a - b)`: insert into an
ascending-sorted list. -/
def sortedInsertBy {α : Type} (lt : α → α → Bool) (x : α) : List α → List α
  | [] => [x]
  | y :: ys => if lt x y then x :: y :: ys else y :: sortedInsertBy lt x ys

/-- Comparator sort (insertion sort); used for `[...days].sort((a,b)=>a-b)`
and the completion sorts in the streak service. -/
def sortBy {α : Type} (lt : α → α → Bool) : List α → List α
  | [] => []
  | x :: xs => sortedInsertBy lt x (sortBy lt xs)

/-- `getNextDailyOccurrence`: today at `time` if still in the future,
otherwise tomorrow at `time`.  `none` only when `time` does not parse
(rejected by validation upstream). -/
def getNextDailyOccurrence (time : String) (now : Int) : Option Int :=
  match parseTime time with
  | none => none
  | some hm =>
    let today := atTime now hm
    if now < today then some today
    else some (today + 1440)

/-- `getNextWeeklyOccurrence`: today at `time` if today is a scheduled day
and `time` has not passed; otherwise the first sorted day after today this
week; otherwise wrap to the earliest scheduled day next week.  `none` when
`time` does not parse or `days` is empty (then `sortedDays[0]` is
`undefined` in the source; both are rejected by validation upstream). -/
def getNextWeeklyOccurrence (days : List Int) (time : String) (now : Int) :
    Option Int :=
  match parseTime time with
  | none => none
  | some hm =>
    let sortedDays := sortBy (fun a b => decide (a < b)) days
    let currentDay := dowOf now
    if sortedDays.contains currentDay && decide (now < atTime now hm) then
      some (atTime now hm)
    else
      match sortedDays.find? (fun day => decide (currentDay < day)) with
      | some day => some (atTime now hm + (day - currentDay) * 1440)
      | none =>
        match sortedDays.head? with
        | some firstDayNextWeek =>
          some (atTime now hm + (7 - currentDay + firstDayNextWeek) * 1440)
        | none => none

/-- The `while (nextOccurrence <= now) nextOccurrence += step` loop of
`getNextCustomOccurrence`.  The source terminates exactly when
`0 < step`; for `step ≤ 0` (a rule validation rejects) the source loops
forever, and the guard below instead stops, so this definition is only
ever used and quantified with `0 < step`. -/
def stepUntilAfter (step now next : Int) : Int :=
  if _h : next ≤ now ∧ 0 < step then stepUntilAfter step now (next + step) else next
termination_by (now + 1 - next).toNat
decreasing_by omega

/-- `getNextCustomOccurrence`: anchor at `habit.nextOccurrenceAt ||
habit.createdAt`, set the rule's time of day, then step forward by the
interval until strictly after `now`. -/
def getNextCustomOccurrence (habit : Habit) (now : Int) : Option Int :=
  match habit.frequencyDetails with
  | .custom count unit time =>
    match parseTime time with
    | none => none
    | some hm =>
      let startDate := habit.nextOccurrenceAt.getD habit.createdAt
      let intervalDays := if unit = "weeks" then count * 7 else count
      some (stepUntilAfter (intervalDays * 1440) now (atTime startDate hm))
  | _ => none

/-- `getNextOccurrence`: `null` for a non-ACTIVE habit, else dispatch on
the frequency kind.  The DAILY branch only reads `details.time`, which
every variant of the union has; the WEEKLY/CUSTOM branches need
kind-specific fields, and a mismatched cast (unreachable, since the pair
is validated together on every write) is modelled as `none`. -/
def getNextOccurrence (habit : Habit) (now : Int) : Option Int :=
  if habit.status ≠ HabitStatus.ACTIVE then none
  else
    match habit.frequencyType with
    | .DAILY => getNextDailyOccurrence habit.frequencyDetails.timeOf now
    | .WEEKLY =>
      match habit.frequencyDetails with
      | .weekly days time => getNextWeeklyOccurrence days time now
      | _ => none
    | .CUSTOM => getNextCustomOccurrence habit now

/-- `isCustomScheduledForDate`: days since the creation *date* (both ends
truncated to midnight, so the millisecond quotient is exact) must be a
non-negative multiple of the interval. -/
def isCustomScheduledForDate (habit : Habit) (date : Int) : Bool :=
  match habit.frequencyDetails with
  | .custom count unit _ =>
    let intervalDays := if unit = "weeks" then count * 7 else count
    let daysDiff := dayOf date - dayOf habit.createdAt
    decide (0 ≤ daysDiff) && decide (daysDiff % intervalDays = 0)
  | _ => false

/-- `isScheduledForDate`: false for non-ACTIVE; DAILY always true; WEEKLY
by day-of-week membership; CUSTOM by the creation-date-anchored interval
check. -/
def isScheduledForDate (habit : Habit) (date : Int) : Bool :=
  if habit.status ≠ HabitStatus.ACTIVE then false
  else
    let dayOfWeek := dowOf date
    match habit.frequencyType with
    | .DAILY => true
    | .WEEKLY =>
      match habit.frequencyDetails with
      | .weekly days _ => days.contains dayOfWeek
      | _ => false
    | .CUSTOM => isCustomScheduledForDate habit date

/-! ### Repositories

The stores are modelled as lists of rows; the primary-key uniqueness the
database enforces is assumed as a hypothesis where a theorem needs it. -/

/-- In-memory state: the habit store and the completion store. -/
structure AppState where
  habits : List Habit
  completions : List HabitCompletion
deriving DecidableEq, Repr

namespace HabitRepository

/-- `findById` (`where: id, deletedAt IS NULL`). -/
def findById (habits : List Habit) (habitId : String) : Option Habit :=
  habits.find? fun h => h.id == habitId && h.deletedAt.isNone

/-- `findByIdAndUser` (`where: id, userId, deletedAt IS NULL`). -/
def findByIdAndUser (habits : List Habit) (habitId userId : String) : Option Habit :=
  habits.find? fun h => h.id == habitId && h.userId == userId && h.deletedAt.isNone

/-- `repository.update(habitId, updates)`: field-level partial update by
primary key, with the concrete partial object given as the field
transformer `upd` at each call site. -/
def update (habits : List Habit) (habitId : String) (upd : Habit → Habit) : List Habit :=
  habits.map fun h => if h.id == habitId then upd h else h

end HabitRepository

namespace HabitCompletionRepository

/-- `findByIdAndUser` (`where: id, userId`). -/
def findByIdAndUser (completions : List HabitCompletion) (completionId userId : String) :
    Option HabitCompletion :=
  completions.find? fun c => c.id == completionId && c.userId == userId

/-- `isCompletedForDate`: a non-undone completion exists for the habit
with `scheduledFor` equal to the given date; the `date`-typed column
compares at calendar-day granularity. -/
def isCompletedForDate (completions : List HabitCompletion) (habitId : String)
    (date : Int) : Bool :=
  completions.any fun c =>
    c.habitId == habitId && dayOf c.scheduledFor == dayOf date && c.undoneAt.isNone

/-- `markUndone`: set `undoneAt = new Date()` on the row with the given
id; the row is updated in place, never deleted. -/
def markUndone (completions : List HabitCompletion) (completionId : String) (now : Int) :
    List HabitCompletion :=
  completions.map fun c =>
    if c.id == completionId then { c with undoneAt := some now } else c

/-- `getCompletionsForStreak` (`where: habitId, undoneAt IS NULL`); the
callers re-sort, so the store order is kept. -/
def getCompletionsForStreak (completions : List HabitCompletion) (habitId : String) :
    List HabitCompletion :=
  completions.filter fun c => c.habitId == habitId && c.undoneAt.isNone

end HabitCompletionRepository

/-! ### Service errors

The services throw NestJS `NotFoundException`, `BadRequestException` and
`ConflictException`; an error value records the exception class and its
message. -/

/-- A thrown service exception: class plus message. -/
inductive ServiceError
  | notFound (message : String)
  | badRequest (message : String)
  | conflict (message : String)
deriving DecidableEq, Repr

/-- The three exception classes (what a caller can branch on besides the
message text). -/
inductive ErrorClass
  | notFoundClass
  | badRequestClass
  | conflictClass
deriving DecidableEq, Repr

/-- Exception class of a thrown error. -/
def errorClass : ServiceError → ErrorClass
  | .notFound _ => .notFoundClass
  | .badRequest _ => .badRequestClass
  | .conflict _ => .conflictClass

/-- Validator exceptions are `BadRequestException`s. -/
def liftValidation : Except String Unit → Except ServiceError Unit
  | .ok _ => .ok ()
  | .error msg => .error (.badRequest msg)

/-! ### Completion service (`habit-completion.service.ts`) -/

/-- `CreateCompletionDto`: `scheduledFor` is a `YYYY-MM-DD` date string,
modelled as the midnight instant it parses to; `notes` optional. -/
structure CreateCompletionDto where
  scheduledFor : Int
  notes : Option String := none
deriving DecidableEq, Repr

/-- The `x?.trim() || null` pattern: absent, null or whitespace-only
becomes null, anything else is trimmed. -/
def trimOrNull : Option String → Option String
  | none => none
  | some s => if s.trim = "" then none else some s.trim

/-- `UNDO_WINDOW_HOURS = 24`. -/
def UNDO_WINDOW_HOURS : Int := 24

/-- `markComplete(habitId, userId, dto)`.  `now` is the injected clock
(`new Date()`), `freshId` the id the store assigns to the inserted row.
On success returns the updated state and the created completion; a thrown
exception returns `Except.error` and leaves the state untouched. -/
def markComplete (st : AppState) (habitId userId : String) (dto : CreateCompletionDto)
    (now : Int) (freshId : String) : Except ServiceError (AppState × HabitCompletion) :=
  match HabitRepository.findByIdAndUser st.habits habitId userId with
  | none => .error (.notFound "Habit not found")
  | some habit =>
    if habit.status ≠ HabitStatus.ACTIVE then
      .error (.badRequest "Cannot complete a paused or archived habit")
    else
      let scheduledFor := dto.scheduledFor
      let today := dayStart now
      let scheduledDate := dayStart scheduledFor
      if today < scheduledDate then
        .error (.badRequest "Cannot complete a habit for a future date")
      else if HabitCompletionRepository.isCompletedForDate st.completions habitId scheduledFor then
        .error (.conflict "Habit already completed for this date")
      else
        let completion : HabitCompletion :=
          { id := freshId, habitId := habitId, userId := userId,
            completedAt := now, scheduledFor := scheduledFor,
            notes := trimOrNull dto.notes, createdAt := now, undoneAt := none }
        -- updateStreakOnCompletion is a no-op (streaks are derived on read)
        let habits1 :=
          match getNextOccurrence habit now with
          | some nextOccurrence =>
            HabitRepository.update st.habits habitId
              fun h => { h with nextOccurrenceAt := some nextOccurrence }
          | none => st.habits
        .ok ({ habits := habits1, completions := st.completions ++ [completion] }, completion)

/-- `undoCompletion(completionId, userId)`: not-found, already-undone and
expired-window failures throw; otherwise `undoneAt` is set (the row is
never deleted).  `hoursSinceCompletion > 24` over real-valued hours is
exactly `now - completedAt > 24*60` in minutes. -/
def undoCompletion (st : AppState) (completionId userId : String) (now : Int) :
    Except ServiceError AppState :=
  match HabitCompletionRepository.findByIdAndUser st.completions completionId userId with
  | none => .error (.notFound "Completion not found")
  | some completion =>
    if completion.undoneAt.isSome then .error (.badRequest "Completion already undone")
    else if UNDO_WINDOW_HOURS * 60 < now - completion.completedAt then
      .error (.badRequest "Cannot undo completion after 24 hours")
    else
      .ok { st with
            completions := HabitCompletionRepository.markUndone st.completions completionId now }

/-! ### Habit service (`habit.service.ts`) -/

/-- `UpdateHabitDto`: every field optional; `description` and
`durationMinutes` may also be explicitly null (inner `Option`).
`timezone` exists on the DTO but `updateHabit` never applies it. -/
structure UpdateHabitDto where
  name : Option String := none
  description : Option (Option String) := none
  frequencyType : Option HabitFrequencyType := none
  frequencyDetails : Option FrequencyDetails := none
  durationMinutes : Option (Option Int) := none
  status : Option HabitStatus := none
  timezone : Option String := none
deriving DecidableEq, Repr

/-- The `updates` object built by `updateHabit`, applied to a row. -/
def applyHabitUpdates (dto : UpdateHabitDto) (h : Habit) : Habit :=
  let h := match dto.name with
    | some n => { h with name := n.trim }
    | none => h
  let h := match dto.description with
    | some d => { h with description := trimOrNull d }
    | none => h
  let h := match dto.frequencyType with
    | some t => { h with frequencyType := t }
    | none => h
  let h := match dto.frequencyDetails with
    | some d => { h with frequencyDetails := d }
    | none => h
  let h := match dto.durationMinutes with
    | some d => { h with durationMinutes := d }
    | none => h
  match dto.status with
  | some s => { h with status := s }
  | none => h

/-- `updateHabit(userId, habitId, dto)`: look up scoped to the owner,
validate the changed fields, apply the partial update, then recompute
`nextOccurrenceAt` only when the frequency changed and the resulting
status is ACTIVE.  The source's non-null assertions (`updatedHabit!`,
`finalHabit!`) are on lookups that always succeed in a reachable state
(the row was just found and updates preserve `id`/`deletedAt`); the
unreachable null case is surfaced as the not-found error. -/
def updateHabit (st : AppState) (userId habitId : String) (dto : UpdateHabitDto)
    (now : Int) : Except ServiceError (AppState × Habit) :=
  match HabitRepository.findByIdAndUser st.habits habitId userId with
  | none => .error (.notFound "Habit not found")
  | some habit =>
    match (match dto.name with
           | some n => validateHabitName n
           | none => .ok ()) with
    | .error msg => .error (.badRequest msg)
    | .ok _ =>
    match (match dto.description with
           | some (some d) => validateDescription d
           | _ => .ok ()) with
    | .error msg => .error (.badRequest msg)
    | .ok _ =>
    match (if dto.frequencyType.isSome || dto.frequencyDetails.isSome then
             validateFrequency (dto.frequencyType.getD habit.frequencyType)
               (some (toRaw (dto.frequencyDetails.getD habit.frequencyDetails)))
           else .ok ()) with
    | .error msg => .error (.badRequest msg)
    | .ok _ =>
    match (match dto.durationMinutes with
           | some (some d) => validateDuration d
           | _ => .ok ()) with
    | .error msg => .error (.badRequest msg)
    | .ok _ =>
      let habits1 := HabitRepository.update st.habits habitId (applyHabitUpdates dto)
      match HabitRepository.findById habits1 habitId with
      | none => .error (.notFound "Habit not found")
      | some updatedHabit =>
        let frequencyChanged := dto.frequencyType.isSome || dto.frequencyDetails.isSome
        let habits2 :=
          if frequencyChanged && (updatedHabit.status == HabitStatus.ACTIVE) then
            HabitRepository.update habits1 habitId
              fun h => { h with nextOccurrenceAt := getNextOccurrence updatedHabit now }
          else habits1
        match HabitRepository.findById habits2 habitId with
        | none => .error (.notFound "Habit not found")
        | some finalHabit => .ok ({ st with habits := habits2 }, finalHabit)

/-- `pauseHabit(userId, habitId)`: no-op if already PAUSED, conflict if
ARCHIVED, otherwise set status PAUSED and clear `nextOccurrenceAt`. -/
def pauseHabit (st : AppState) (userId habitId : String) :
    Except ServiceError (AppState × Habit) :=
  match HabitRepository.findByIdAndUser st.habits habitId userId with
  | none => .error (.notFound "Habit not found")
  | some habit =>
    if habit.status = HabitStatus.PAUSED then .ok (st, habit)
    else if habit.status = HabitStatus.ARCHIVED then
      .error (.conflict "Cannot pause an archived habit")
    else
      let habits1 := HabitRepository.update st.habits habitId
        fun h => { h with status := HabitStatus.PAUSED, nextOccurrenceAt := none }
      match HabitRepository.findById habits1 habitId with
      | none => .error (.notFound "Habit not found")
      | some updated => .ok ({ st with habits := habits1 }, updated)

/-- `resumeHabit(userId, habitId)`: no-op if already ACTIVE, conflict if
ARCHIVED; otherwise computes `getNextOccurrence` on the *still-paused*
row (which therefore yields `null`) and sets status ACTIVE with that
value, exactly as the source does. -/
def resumeHabit (st : AppState) (userId habitId : String) (now : Int) :
    Except ServiceError (AppState × Habit) :=
  match HabitRepository.findByIdAndUser st.habits habitId userId with
  | none => .error (.notFound "Habit not found")
  | some habit =>
    if habit.status = HabitStatus.ACTIVE then .ok (st, habit)
    else if habit.status = HabitStatus.ARCHIVED then
      .error (.conflict "Cannot resume an archived habit")
    else
      let nextOccurrence := getNextOccurrence habit now
      let habits1 := HabitRepository.update st.habits habitId
        fun h => { h with status := HabitStatus.ACTIVE, nextOccurrenceAt := nextOccurrence }
      match HabitRepository.findById habits1 habitId with
      | none => .error (.notFound "Habit not found")
      | some updated => .ok ({ st with habits := habits1 }, updated)

/-! ### Streak service (`habit-streak.service.ts`)

Streaks walk calendar days; a day number `d` is handed to
`isScheduledForDate` as its midnight instant `1440 * d` (the source builds
a `Date` at local midnight for the same purpose). -/

/-- The inner `while (currentDate >= completionDate)` loop of
`calculateCurrentStreak` for one completion: `Sum.inl s` models the early
`return streak` (a scheduled day was missed), `Sum.inr (s, cur)` models
falling out of the loop or the `break` after a match, carrying the
updated streak and cursor to the next completion. -/
def currentStreakInner (habit : Habit) (compDay : Int) (streak : Nat) (currentDate : Int) :
    Sum Nat (Nat × Int) :=
  if _h : compDay ≤ currentDate then
    if isScheduledForDate habit (1440 * currentDate) then
      if currentDate = compDay then Sum.inr (streak + 1, currentDate - 1)
      else Sum.inl streak
    else currentStreakInner habit compDay streak (currentDate - 1)
  else Sum.inr (streak, currentDate)
termination_by (currentDate - compDay + 1).toNat
decreasing_by omega

/-- The outer `for (const completion of sortedCompletions)` loop of
`calculateCurrentStreak`. -/
def currentStreakWalk (habit : Habit) :
    List HabitCompletion → Nat → Int → Nat
  | [], streak, _ => streak
  | completion :: rest, streak, currentDate =>
    match currentStreakInner habit (dayOf completion.scheduledFor) streak currentDate with
    | Sum.inl s => s
    | Sum.inr (s, cur) => currentStreakWalk habit rest s cur

/-- `calculateCurrentStreak(habitId, userId)`: walk backward from today
(or yesterday, when today is scheduled but not yet completed) over the
completions sorted by descending date. -/
def calculateCurrentStreak (st : AppState) (habitId userId : String) (now : Int) : Nat :=
  match HabitRepository.findByIdAndUser st.habits habitId userId with
  | none => 0
  | some habit =>
    let completions := HabitCompletionRepository.getCompletionsForStreak st.completions habitId
    if completions.isEmpty then 0
    else
      let sortedCompletions :=
        sortBy (fun a b => decide (b.scheduledFor < a.scheduledFor)) completions
      let currentDate := dayOf now
      let todayScheduled := isScheduledForDate habit (1440 * currentDate)
      let todayCompleted :=
        sortedCompletions.any fun c => dayOf c.scheduledFor == currentDate
      let startDate := if todayScheduled && !todayCompleted then currentDate - 1 else currentDate
      currentStreakWalk habit sortedCompletions 0 startDate

/-- The `for (let i = 1; i <= 7; i++)` scan of `calculateLongestStreak`:
the first scheduled day within seven days after `nextExpected`, or `none`
when the week holds no scheduled day. -/
def findNextScheduledFrom (habit : Habit) (nextExpected : Int) : Nat → Option Int
  | 0 => none
  | r + 1 =>
    let ne := nextExpected + 1
    if isScheduledForDate habit (1440 * ne) then some ne
    else findNextScheduledFrom habit ne r

/-- The main loop of `calculateLongestStreak` after the first completion
seeded `currentStreak = 1`. -/
def longestStreakWalk (habit : Habit) :
    List HabitCompletion → Nat → Nat → Int → Nat
  | [], longestStreak, currentStreak, _ => max longestStreak currentStreak
  | completion :: rest, longestStreak, currentStreak, lastScheduledDate =>
    let completionDate := dayOf completion.scheduledFor
    match findNextScheduledFrom habit lastScheduledDate 7 with
    | some nextExpected =>
      if nextExpected = completionDate then
        longestStreakWalk habit rest longestStreak (currentStreak + 1) completionDate
      else
        longestStreakWalk habit rest (max longestStreak currentStreak) 1 completionDate
    | none =>
      longestStreakWalk habit rest (max longestStreak currentStreak) 1 completionDate

/-- `calculateLongestStreak(habitId, userId)`: walk the completions in
ascending date order, extending the running streak when the next
completion lands on the next in-scope date (scanned up to a week ahead),
resetting to 1 otherwise. -/
def calculateLongestStreak (st : AppState) (habitId userId : String) : Nat :=
  match HabitRepository.findByIdAndUser st.habits habitId userId with
  | none => 0
  | some habit =>
    let completions := HabitCompletionRepository.getCompletionsForStreak st.completions habitId
    if completions.isEmpty then 0
    else
      let sortedCompletions :=
        sortBy (fun a b => decide (a.scheduledFor < b.scheduledFor)) completions
      match sortedCompletions with
      | [] => 0
      | first :: rest => longestStreakWalk habit rest 0 1 (dayOf first.scheduledFor)

end HabitFlow

namespace HabitFlow

/-- The CUSTOM anchor (`nextOccurrenceAt || createdAt`) sits a whole
number of intervals at or after the creation date.  This holds for a
freshly created habit (anchor = creation) and is preserved by the
service's own recomputations with an unchanged rule, but can be broken by
a rule edit that keeps the old `nextOccurrenceAt`.  Non-CUSTOM kinds are
unconstrained. -/
def CustomAnchorAligned (habit : Habit) : Prop :=
  match habit.frequencyType, habit.frequencyDetails with
  | .CUSTOM, .custom count unit _ =>
    dayOf habit.createdAt ≤ dayOf (habit.nextOccurrenceAt.getD habit.createdAt) ∧
    (dayOf (habit.nextOccurrenceAt.getD habit.createdAt) - dayOf habit.createdAt)
      % (if unit = "weeks" then count * 7 else count) = 0
  | _, _ => True

/-! ### Concrete rows used by witnesses and counterexamples -/

deriving instance DecidableEq for Except


/-- A plain ACTIVE daily habit (time 07:00), created at the epoch. -/
def dailyHabit : Habit :=
  { id := "habit-1", userId := "user-1", name := "Morning Meditation",
    description := none, frequencyType := .DAILY,
    frequencyDetails := .daily "07:00", durationMinutes := some 15,
    status := .ACTIVE, timezone := "America/New_York",
    nextOccurrenceAt := none, createdAt := 0, updatedAt := 0,
    deletedAt := none, version := 1 }

/-- An ACTIVE every-2-days CUSTOM habit created at the epoch whose
persisted `nextOccurrenceAt` sits on day 1 — one day off the
creation-date grid, as happens after a rule edit reanchors the stored
instant. -/
def offPhaseCustomHabit : Habit :=
  { dailyHabit with
    frequencyType := .CUSTOM,
    frequencyDetails := .custom 2 "days" "09:00",
    nextOccurrenceAt := some 1440 }

/-- A status-only update DTO setting PAUSED. -/
def pauseDto : UpdateHabitDto := { status := some HabitStatus.PAUSED }

/-- The daily habit with a persisted next occurrence (today 07:00). -/
def dueDailyHabit : Habit := { dailyHabit with nextOccurrenceAt := some 420 }

/-- A completion recorded at the epoch, not undone. -/
def freshCompletion : HabitCompletion :=
  { id := "comp-1", habitId := "habit-1", userId := "user-1",
    completedAt := 0, scheduledFor := 0, notes := none, createdAt := 0, undoneAt := none }

/-- The daily habit, archived / paused. -/
def archivedHabit : Habit := { dailyHabit with status := HabitStatus.ARCHIVED }

def pausedHabit : Habit := { dailyHabit with status := HabitStatus.PAUSED }

/-- A WEEKLY Monday/Wednesday/Friday habit. -/
def mwfHabit : Habit :=
  { dailyHabit with
    frequencyType := HabitFrequencyType.WEEKLY,
    frequencyDetails := FrequencyDetails.weekly [1, 3, 5] "07:00" }

/-- A non-undone completion row for the daily habit on a given day. -/
def streakCompletion (i : String) (day : Int) : HabitCompletion :=
  { id := i, habitId := "habit-1", userId := "user-1",
    completedAt := 1440 * day + 480, scheduledFor := 1440 * day,
    notes := none, createdAt := 1440 * day + 480, undoneAt := none }

/-- Completions on days 1, 2, 3 and 5 — a gap on day 4. -/
def streakState : AppState :=
  { habits := [dailyHabit],
    completions := [streakCompletion "comp-1" 1, streakCompletion "comp-2" 2,
      streakCompletion "comp-3" 3, streakCompletion "comp-5" 5] }

/-! ### Basic arithmetic facts about the time model -/

theorem dayStart_le (t : Int) : dayStart t ≤ t := by
  unfold dayStart dayOf; omega

theorem lt_dayStart_add (t : Int) : t < dayStart t + 1440 := by
  unfold dayStart dayOf; omega

theorem dowOf_bounds (t : Int) : 0 ≤ dowOf t ∧ dowOf t < 7 := by
  unfold dowOf dayOf; omega

theorem dayOf_atTime_add (t hm k : Int) (h0 : 0 ≤ hm) (h1 : hm < 1440) :
    dayOf (atTime t hm + k * 1440) = dayOf t + k := by
  unfold atTime dayStart dayOf; omega

/-! ### The stepping loop -/

/-- For a positive step, the loop lands on `next` plus a whole number of
steps and its result is strictly after `now`. -/
theorem stepUntilAfter_spec (step now : Int) (hstep : 0 < step) (next : Int) :
    ∃ j : Nat, stepUntilAfter step now next = next + (j : Int) * step ∧
      now < next + (j : Int) * step := by
  generalize hgen : (now + 1 - next).toNat = m
  induction m using Nat.strong_induction_on generalizing next with
  | _ m ih =>
    rw [stepUntilAfter]
    by_cases h : next ≤ now
    · rw [dif_pos ⟨h, hstep⟩]
      obtain ⟨j, hj1, hj2⟩ := ih (now + 1 - (next + step)).toNat (by omega) (next + step) rfl
      refine ⟨j + 1, ?_, ?_⟩
      · rw [hj1]; push_cast; ring
      · push_cast at hj2 ⊢; linarith
    · rw [dif_neg (by omega)]
      exact ⟨0, by simp, by omega⟩


/-! ### Sorting lemmas -/

theorem mem_sortedInsertBy {α : Type} (lt : α → α → Bool) (x a : α) (l : List α) :
    a ∈ sortedInsertBy lt x l ↔ a = x ∨ a ∈ l := by
  induction l with
  | nil => simp [sortedInsertBy]
  | cons y ys ih =>
    unfold sortedInsertBy
    by_cases h : lt x y
    · simp [h]
    · simp [h, ih]
      tauto

theorem mem_sortBy {α : Type} (lt : α → α → Bool) (a : α) (l : List α) :
    a ∈ sortBy lt l ↔ a ∈ l := by
  induction l with
  | nil => simp [sortBy]
  | cons y ys ih => simp [sortBy, mem_sortedInsertBy, ih]

theorem sortedInsertBy_ne_nil {α : Type} (lt : α → α → Bool) (x : α) (l : List α) :
    sortedInsertBy lt x l ≠ [] := by
  cases l with
  | nil => simp [sortedInsertBy]
  | cons y ys =>
    unfold sortedInsertBy
    by_cases h : lt x y <;> simp [h]

theorem sortBy_eq_nil_iff {α : Type} (lt : α → α → Bool) (l : List α) :
    sortBy lt l = [] ↔ l = [] := by
  cases l with
  | nil => simp [sortBy]
  | cons y ys => simp [sortBy, sortedInsertBy_ne_nil]

/-! ### Character and parsing lemmas: a string accepted by the `HH:mm`
regex parses to a minute count in `[0, 1440)`. -/

theorem char_toNat_bounds {c lo hi : Char} (h1 : lo ≤ c) (h2 : c ≤ hi) :
    lo.toNat ≤ c.toNat ∧ c.toNat ≤ hi.toNat := by
  rw [Char.le_def] at h1 h2
  rw [UInt32.le_def] at h1 h2
  simp [BitVec.le_def] at h1 h2
  exact ⟨h1, h2⟩

theorem isDigit_toNat_bounds {c : Char} (h : c.isDigit = true) :
    48 ≤ c.toNat ∧ c.toNat ≤ 57 := by
  simp only [Char.isDigit, Bool.and_eq_true, decide_eq_true_eq] at h
  exact ⟨h.1, h.2⟩

theorem isDigit_of_between {c : Char} (h1 : '0' ≤ c) (h2 : c ≤ '9') : c.isDigit = true := by
  have := char_toNat_bounds h1 h2
  simp only [Char.isDigit, Bool.and_eq_true, decide_eq_true_eq]
  constructor
  · exact this.1
  · exact this.2

theorem ne_colon_of_isDigit {c : Char} (h : c.isDigit = true) : ¬(c = ':') := by
  intro hc
  subst hc
  have hfalse : (':' : Char).isDigit = false := by decide
  rw [hfalse] at h
  exact Bool.false_ne_true h

theorem digitVal_le_of_isDigit {c : Char} (h : c.isDigit = true) : digitVal c ≤ 9 := by
  have hb := isDigit_toNat_bounds h
  have h0 : ('0' : Char).toNat = 48 := rfl
  unfold digitVal
  omega


theorem foldl_two (c0 c1 : Char) :
    [c0, c1].foldl (fun acc c => acc * 10 + digitVal c) 0 = digitVal c0 * 10 + digitVal c1 := by
  simp [List.foldl]

theorem isValidTimeFormat_shape (time : String) (h : isValidTimeFormat time = true) :
    ∃ c0 c1 c3 c4, time.data = [c0, c1, ':', c3, c4] ∧
      (((c0 = '0' ∨ c0 = '1') ∧ c1.isDigit = true) ∨ (c0 = '2' ∧ '0' ≤ c1 ∧ c1 ≤ '3')) ∧
      ('0' ≤ c3 ∧ c3 ≤ '5') ∧ c4.isDigit = true := by
  unfold isValidTimeFormat at h
  rcases hd : time.data with _ | ⟨c0, _ | ⟨c1, _ | ⟨c2, _ | ⟨c3, _ | ⟨c4, _ | ⟨c5, rest⟩⟩⟩⟩⟩⟩ <;>
    rw [hd] at h <;> simp at h
  obtain ⟨⟨⟨hc01, hc2⟩, hc3⟩, hc4⟩ := h
  subst hc2
  exact ⟨c0, c1, c3, c4, rfl, hc01, hc3, hc4⟩


/-- Bridge: any time string the validator's regex accepts parses to a
minute-of-day in `[0, 1440)`. -/
theorem parseTime_of_isValidTimeFormat (time : String) (h : isValidTimeFormat time = true) :
    ∃ hm : Int, parseTime time = some hm ∧ 0 ≤ hm ∧ hm < 1440 := by
  obtain ⟨c0, c1, c3, c4, hd, hc01, hc3, hc4⟩ := isValidTimeFormat_shape time h
  have h0digit : c0.isDigit = true := by
    rcases hc01 with ⟨h01, _⟩ | ⟨h2, _⟩
    · rcases h01 with rfl | rfl <;> decide
    · subst h2; decide
  have h1digit : c1.isDigit = true := by
    rcases hc01 with ⟨_, hd1⟩ | ⟨_, hb1, hb2⟩
    · exact hd1
    · exact isDigit_of_between hb1 (le_trans hb2 (by decide))
  have h3digit : c3.isDigit = true := isDigit_of_between hc3.1 (le_trans hc3.2 (by decide))
  have hsplit : splitOnColon time.data = [[c0, c1], [c3, c4]] := by
    rw [hd]
    simp [splitOnColon, ne_colon_of_isDigit h0digit, ne_colon_of_isDigit h1digit,
      ne_colon_of_isDigit h3digit, ne_colon_of_isDigit hc4]
  have hp0 : parseNatDigits [c0, c1] = some (digitVal c0 * 10 + digitVal c1) := by
    simp [parseNatDigits, h0digit, h1digit, foldl_two]
  have hp1 : parseNatDigits [c3, c4] = some (digitVal c3 * 10 + digitVal c4) := by
    simp [parseNatDigits, h3digit, hc4, foldl_two]
  have hb1 : digitVal c1 ≤ 9 := digitVal_le_of_isDigit h1digit
  have hb4 : digitVal c4 ≤ 9 := digitVal_le_of_isDigit hc4
  have hb3 : digitVal c3 ≤ 5 := by
    have hcb := char_toNat_bounds hc3.1 hc3.2
    have h5 : ('5' : Char).toNat = 53 := rfl
    have h0 : ('0' : Char).toNat = 48 := rfl
    unfold digitVal
    omega
  have hb0 : digitVal c0 * 10 + digitVal c1 ≤ 23 := by
    rcases hc01 with ⟨h01, _⟩ | ⟨h2, hlo, hhi⟩
    · rcases h01 with rfl | rfl
      · have : digitVal '0' = 0 := by decide
        omega
      · have : digitVal '1' = 1 := by decide
        omega
    · subst h2
      have h2v : digitVal '2' = 2 := by decide
      have hcb := char_toNat_bounds hlo hhi
      have h3v : ('3' : Char).toNat = 51 := rfl
      have h0v : ('0' : Char).toNat = 48 := rfl
      unfold digitVal at h2v ⊢
      omega
  refine ⟨((digitVal c0 * 10 + digitVal c1 : Nat) : Int) * 60 +
      ((digitVal c3 * 10 + digitVal c4 : Nat) : Int), ?_, ?_, ?_⟩
  · unfold parseTime
    rw [hsplit]
    simp [hp0, hp1]
  · positivity
  · push_cast
    omega


/-! ### Facts extracted from an accepted validation -/

theorem toRaw_time (d : FrequencyDetails) : (toRaw d).time = some d.timeOf := by
  cases d <;> rfl

theorem validateDailyFrequency_ok {d : RawFrequencyDetails}
    (h : validateDailyFrequency d = .ok ()) :
    isValidTimeFormat (d.time.getD "") = true := by
  unfold validateDailyFrequency at h
  split at h
  · simp at h
  · split at h
    · simp at h
    · rename_i h2
      simpa using h2

theorem validateWeeklyFrequency_ok {d : RawFrequencyDetails}
    (h : validateWeeklyFrequency d = .ok ()) :
    ∃ days, d.days = some days ∧ days ≠ [] ∧ (∀ x ∈ days, 0 ≤ x ∧ x ≤ 6) ∧
      isValidTimeFormat (d.time.getD "") = true := by
  unfold validateWeeklyFrequency at h
  split at h
  · simp at h
  · rename_i days hdays
    split at h
    · simp at h
    · split at h
      · simp at h
      · split at h
        · simp at h
        · split at h
          · simp at h
          · rename_i hempty hrange _ hformat
            refine ⟨days, hdays, ?_, ?_, by simpa using hformat⟩
            · simpa using hempty
            · intro x hx
              have hr : days.any (fun day => decide (day < 0) || decide (6 < day)) = false := by
                simpa using hrange
              have hx2 := List.any_eq_false.mp hr x hx
              simp at hx2
              omega

theorem validateCustomFrequency_ok {d : RawFrequencyDetails}
    (h : validateCustomFrequency d = .ok ()) :
    ∃ count, d.count = some count ∧ 1 ≤ count ∧ count ≤ 365 ∧
      isValidTimeFormat (d.time.getD "") = true := by
  unfold validateCustomFrequency at h
  split at h
  · simp at h
  · rename_i count hcount
    split at h
    · simp at h
    · split at h
      · simp at h
      · split at h
        · simp at h
        · split at h
          · simp at h
          · split at h
            · simp at h
            · rename_i hzero hrange _ _ hformat
              refine ⟨count, hcount, ?_, ?_, by simpa using hformat⟩
              · simp at hrange
                omega
              · simp at hrange
                omega


theorem head?_mem {α : Type} {l : List α} {a : α} (h : l.head? = some a) : a ∈ l := by
  cases l with
  | nil => simp at h
  | cons x xs =>
    simp at h
    subst h
    exact List.mem_cons_self x xs

/-- C1: for every ACTIVE habit whose frequency rule passes the validator,
`getNextOccurrence` returns an instant strictly after the reference
instant, in all three kind branches. -/
theorem C1_nextOccurrence_strictly_after
    (habit : Habit) (now : Int)
    (hactive : habit.status = HabitStatus.ACTIVE)
    (hvalid : validateFrequency habit.frequencyType
      (some (toRaw habit.frequencyDetails)) = .ok ()) :
    ∃ t, getNextOccurrence habit now = some t ∧ now < t := by
  unfold getNextOccurrence
  rw [if_neg (by simp [hactive])]
  unfold validateFrequency at hvalid
  rcases hft : habit.frequencyType with _ | _ | _ <;> rw [hft] at hvalid <;>
    simp only [] at hvalid <;> dsimp only
  · -- DAILY
    have hformat := validateDailyFrequency_ok hvalid
    rw [toRaw_time] at hformat
    simp only [Option.getD_some] at hformat
    obtain ⟨hm, hp, h0, h1⟩ := parseTime_of_isValidTimeFormat _ hformat
    unfold getNextDailyOccurrence
    rw [hp]
    dsimp only
    by_cases hlt : now < atTime now hm
    · rw [if_pos hlt]
      exact ⟨_, rfl, hlt⟩
    · rw [if_neg hlt]
      refine ⟨_, rfl, ?_⟩
      unfold atTime dayStart dayOf at *
      omega
  · -- WEEKLY
    cases hdet : habit.frequencyDetails with
    | daily time => rw [hdet] at hvalid; simp [toRaw, validateWeeklyFrequency] at hvalid
    | custom count unit time => rw [hdet] at hvalid; simp [toRaw, validateWeeklyFrequency] at hvalid
    | weekly days time =>
      rw [hdet] at hvalid
      obtain ⟨days2, hdays2, hne, hbounds, hformat⟩ := validateWeeklyFrequency_ok hvalid
      simp only [toRaw, Option.some.injEq] at hdays2 hformat
      subst hdays2
      simp only [Option.getD_some] at hformat
      obtain ⟨hm, hp, h0, h1⟩ := parseTime_of_isValidTimeFormat _ hformat
      dsimp only
      unfold getNextWeeklyOccurrence
      rw [hp]
      dsimp only
      by_cases hcond :
          ((sortBy (fun a b => decide (a < b)) days).contains (dowOf now)
            && decide (now < atTime now hm)) = true
      · rw [if_pos hcond]
        rw [Bool.and_eq_true, decide_eq_true_eq] at hcond
        exact ⟨_, rfl, hcond.2⟩
      · rw [if_neg hcond]
        cases hfind : (sortBy (fun a b => decide (a < b)) days).find?
            (fun day => decide (dowOf now < day)) with
        | some day =>
          have hgt : dowOf now < day := by
            have := List.find?_some hfind
            simpa using this
          refine ⟨_, rfl, ?_⟩
          unfold atTime dayStart dowOf dayOf at *
          omega
        | none =>
          cases hhead : (sortBy (fun a b => decide (a < b)) days).head? with
          | none =>
            rw [List.head?_eq_none_iff] at hhead
            rw [sortBy_eq_nil_iff] at hhead
            exact absurd hhead hne
          | some firstDayNextWeek =>
            have hmem : firstDayNextWeek ∈ days := by
              rw [← mem_sortBy (fun a b => decide (a < b))]
              exact head?_mem hhead
            have hfb := hbounds _ hmem
            refine ⟨_, rfl, ?_⟩
            unfold atTime dayStart dowOf dayOf at *
            omega
  · -- CUSTOM
    cases hdet : habit.frequencyDetails with
    | daily time => rw [hdet] at hvalid; simp [toRaw, validateCustomFrequency] at hvalid
    | weekly days time => rw [hdet] at hvalid; simp [toRaw, validateCustomFrequency] at hvalid
    | custom count unit time =>
      rw [hdet] at hvalid
      obtain ⟨count2, hcount2, hc1, hc365, hformat⟩ := validateCustomFrequency_ok hvalid
      simp only [toRaw, Option.some.injEq] at hcount2 hformat
      subst hcount2
      simp only [Option.getD_some] at hformat
      obtain ⟨hm, hp, h0, h1⟩ := parseTime_of_isValidTimeFormat _ hformat
      unfold getNextCustomOccurrence
      rw [hdet]
      dsimp only
      rw [hp]
      dsimp only
      have hpos : 0 < (if unit = "weeks" then count * 7 else count) * 1440 := by
        split <;> omega
      obtain ⟨j, hj, hgt⟩ := stepUntilAfter_spec _ now hpos
        (atTime (habit.nextOccurrenceAt.getD habit.createdAt) hm)
      exact ⟨_, rfl, by rw [hj]; exact hgt⟩


theorem contains_iff_mem {l : List Int} {a : Int} : l.contains a = true ↔ a ∈ l :=
  List.elem_iff

/-- C2 (amended): for an ACTIVE habit with a validator-accepted rule, the
date of `getNextOccurrence`'s result satisfies `isScheduledForDate` — for
DAILY and WEEKLY unconditionally, and for CUSTOM under the additional
anchor-alignment premise that the claim's counterexample shows is
necessary. -/
theorem C2_nextOccurrence_isScheduled
    (habit : Habit) (now t : Int)
    (hactive : habit.status = HabitStatus.ACTIVE)
    (hvalid : validateFrequency habit.frequencyType
      (some (toRaw habit.frequencyDetails)) = .ok ())
    (haligned : CustomAnchorAligned habit)
    (ht : getNextOccurrence habit now = some t) :
    isScheduledForDate habit t = true := by
  unfold getNextOccurrence at ht
  rw [if_neg (by simp [hactive])] at ht
  unfold isScheduledForDate
  rw [if_neg (by simp [hactive])]
  unfold validateFrequency at hvalid
  unfold CustomAnchorAligned at haligned
  rcases hft : habit.frequencyType with _ | _ | _ <;> rw [hft] at hvalid ht haligned <;>
    simp only [] at hvalid <;> dsimp only at ht ⊢
  -- the DAILY goal closes by reduction (always scheduled)
  · -- WEEKLY
    cases hdet : habit.frequencyDetails with
    | daily time =>
      try rw [hdet] at hvalid
      simp [toRaw, validateWeeklyFrequency] at hvalid
    | custom count unit time =>
      try rw [hdet] at hvalid
      simp [toRaw, validateWeeklyFrequency] at hvalid
    | weekly days time =>
      try rw [hdet] at hvalid
      try rw [hdet] at ht
      try rw [hdet]
      obtain ⟨days2, hdays2, hne, hbounds, hformat⟩ := validateWeeklyFrequency_ok hvalid
      simp only [toRaw, Option.some.injEq] at hdays2 hformat
      subst hdays2
      simp only [Option.getD_some] at hformat
      obtain ⟨hm, hp, h0, h1⟩ := parseTime_of_isValidTimeFormat _ hformat
      dsimp only at ht ⊢
      unfold getNextWeeklyOccurrence at ht
      rw [hp] at ht
      dsimp only at ht
      by_cases hcond :
          ((sortBy (fun a b => decide (a < b)) days).contains (dowOf now)
            && decide (now < atTime now hm)) = true
      · rw [if_pos hcond] at ht
        rw [Bool.and_eq_true] at hcond
        obtain ⟨rfl⟩ : atTime now hm = t := by simpa using ht
        have hdow : dowOf (atTime now hm) = dowOf now := by
          have hz := dayOf_atTime_add now hm 0 h0 h1
          unfold dowOf
          simp at hz
          rw [hz]
        rw [hdow]
        rw [contains_iff_mem] at hcond ⊢
        rw [← mem_sortBy (fun a b => decide (a < b))]
        exact hcond.1
      · rw [if_neg hcond] at ht
        cases hfind : (sortBy (fun a b => decide (a < b)) days).find?
            (fun day => decide (dowOf now < day)) with
        | some day =>
          rw [hfind] at ht
          obtain ⟨rfl⟩ : atTime now hm + (day - dowOf now) * 1440 = t := by simpa using ht
          have hmem : day ∈ days := by
            rw [← mem_sortBy (fun a b => decide (a < b))]
            exact List.mem_of_find?_eq_some hfind
          have hdb := hbounds _ hmem
          have hdow : dowOf (atTime now hm + (day - dowOf now) * 1440) = day := by
            have hday := dayOf_atTime_add now hm (day - dowOf now) h0 h1
            unfold dowOf at *
            rw [hday]
            unfold dayOf at *
            omega
          rw [hdow]
          rw [contains_iff_mem]
          exact hmem
        | none =>
          rw [hfind] at ht
          cases hhead : (sortBy (fun a b => decide (a < b)) days).head? with
          | none =>
            rw [List.head?_eq_none_iff, sortBy_eq_nil_iff] at hhead
            exact absurd hhead hne
          | some firstDayNextWeek =>
            rw [hhead] at ht
            obtain ⟨rfl⟩ : atTime now hm + (7 - dowOf now + firstDayNextWeek) * 1440 = t := by
              simpa using ht
            have hmem : firstDayNextWeek ∈ days := by
              rw [← mem_sortBy (fun a b => decide (a < b))]
              exact head?_mem hhead
            have hfb := hbounds _ hmem
            have hdow : dowOf (atTime now hm + (7 - dowOf now + firstDayNextWeek) * 1440)
                = firstDayNextWeek := by
              have hday := dayOf_atTime_add now hm (7 - dowOf now + firstDayNextWeek) h0 h1
              unfold dowOf at *
              rw [hday]
              unfold dayOf at *
              omega
            rw [hdow]
            rw [contains_iff_mem]
            exact hmem
  · -- CUSTOM
    cases hdet : habit.frequencyDetails with
    | daily time =>
      try rw [hdet] at hvalid
      simp [toRaw, validateCustomFrequency] at hvalid
    | weekly days time =>
      try rw [hdet] at hvalid
      simp [toRaw, validateCustomFrequency] at hvalid
    | custom count unit time =>
      try rw [hdet] at hvalid
      try rw [hdet] at haligned
      dsimp only at haligned
      obtain ⟨count2, hcount2, hc1, hc365, hformat⟩ := validateCustomFrequency_ok hvalid
      simp only [toRaw, Option.some.injEq] at hcount2 hformat
      subst hcount2
      simp only [Option.getD_some] at hformat
      obtain ⟨hm, hp, h0, h1⟩ := parseTime_of_isValidTimeFormat _ hformat
      unfold getNextCustomOccurrence at ht
      rw [hdet] at ht
      dsimp only at ht
      rw [hp] at ht
      dsimp only at ht
      set ivd : Int := if unit = "weeks" then count * 7 else count with hivd
      have hpos : 0 < ivd := by
        rw [hivd]
        split <;> omega
      obtain ⟨j, hj, _⟩ := stepUntilAfter_spec (ivd * 1440) now (by omega)
        (atTime (habit.nextOccurrenceAt.getD habit.createdAt) hm)
      rw [hj] at ht
      obtain ⟨rfl⟩ :
          atTime (habit.nextOccurrenceAt.getD habit.createdAt) hm + (j : Int) * (ivd * 1440)
            = t := by simpa using ht
      unfold isCustomScheduledForDate
      rw [hdet]
      dsimp only
      rw [← hivd]
      have hday : dayOf (atTime (habit.nextOccurrenceAt.getD habit.createdAt) hm
          + (j : Int) * (ivd * 1440))
          = dayOf (habit.nextOccurrenceAt.getD habit.createdAt) + (j : Int) * ivd := by
        have hadd := dayOf_atTime_add (habit.nextOccurrenceAt.getD habit.createdAt) hm
          ((j : Int) * ivd) h0 h1
        rw [← hadd]
        ring_nf
      rw [Bool.and_eq_true, decide_eq_true_eq, decide_eq_true_eq]
      rw [hday]
      obtain ⟨hal1, hal2⟩ := haligned
      constructor
      · have hjnn : 0 ≤ (j : Int) * ivd := by positivity
        omega
      · have hrw : dayOf (habit.nextOccurrenceAt.getD habit.createdAt) + (j : Int) * ivd
            - dayOf habit.createdAt
            = (dayOf (habit.nextOccurrenceAt.getD habit.createdAt) - dayOf habit.createdAt)
              + ivd * (j : Int) := by ring
        rw [hrw, Int.add_mul_emod_self_left, hal2]


theorem C1_nextOccurrence_strictly_after_witness :
    (dailyHabit.status = HabitStatus.ACTIVE ∧
      validateFrequency dailyHabit.frequencyType
        (some (toRaw dailyHabit.frequencyDetails)) = .ok ()) ∧
    ∃ t, getNextOccurrence dailyHabit 100 = some t ∧ 100 < t :=
  ⟨⟨rfl, by decide⟩, C1_nextOccurrence_strictly_after dailyHabit 100 rfl (by decide)⟩

/-- C2 (counterexample): a validator-accepted ACTIVE CUSTOM habit whose
anchor is off the creation-date grid: `getNextOccurrence` lands on day 1
(instant 1980 = day 1, 09:00), but `isScheduledForDate` rejects that day
(1 is not a multiple of the 2-day interval from the creation date). -/
theorem C2_counterexample :
    offPhaseCustomHabit.status = HabitStatus.ACTIVE ∧
    validateFrequency offPhaseCustomHabit.frequencyType
      (some (toRaw offPhaseCustomHabit.frequencyDetails)) = .ok () ∧
    getNextOccurrence offPhaseCustomHabit 0 = some 1980 ∧
    isScheduledForDate offPhaseCustomHabit 1980 = false := by
  refine ⟨rfl, by decide, ?_, by decide⟩
  have h1 : getNextOccurrence offPhaseCustomHabit 0
      = some (stepUntilAfter 2880 0 1980) := rfl
  rw [h1]
  rw [stepUntilAfter]
  norm_num

theorem C2_nextOccurrence_isScheduled_witness :
    (dailyHabit.status = HabitStatus.ACTIVE ∧
      validateFrequency dailyHabit.frequencyType
        (some (toRaw dailyHabit.frequencyDetails)) = .ok () ∧
      CustomAnchorAligned dailyHabit ∧
      getNextOccurrence dailyHabit 100 = some 420) ∧
    isScheduledForDate dailyHabit 420 = true :=
  ⟨⟨rfl, by decide, trivial, by decide⟩,
    C2_nextOccurrence_isScheduled dailyHabit 100 420 rfl (by decide) trivial (by decide)⟩


/-! ### Repository update lemmas -/

/-- Updating by id commutes with `findById` when the update preserves the
id and the soft-delete marker. -/
theorem findById_update_of_found (habits : List Habit) (habitId : String)
    (f : Habit → Habit) (habit : Habit)
    (hfind : HabitRepository.findById habits habitId = some habit)
    (hf_id : ∀ g, (f g).id = g.id) (hf_del : ∀ g, (f g).deletedAt = g.deletedAt) :
    HabitRepository.findById (HabitRepository.update habits habitId f) habitId
      = some (f habit) := by
  unfold HabitRepository.findById HabitRepository.update at *
  induction habits with
  | nil => simp at hfind
  | cons g gs ih =>
    by_cases hid : (g.id == habitId) = true <;>
      by_cases hdel : g.deletedAt.isNone = true <;>
      simp only [List.map_cons, List.find?_cons, hid, hdel, hf_id, hf_del, if_true, if_false,
        Bool.and_true, Bool.and_false, Bool.and_self, Bool.true_and, Bool.false_and,
        Bool.not_eq_true, Bool.false_eq_true, reduceIte] at hfind ⊢
    · simp only [Option.some.injEq] at hfind
      subst hfind
      rfl
    · exact ih hfind
    · exact ih hfind
    · exact ih hfind


/-- Updating by id commutes with `findByIdAndUser` when the update
preserves the id, the owner and the soft-delete marker. -/
theorem findByIdAndUser_update_of_found (habits : List Habit) (habitId userId : String)
    (f : Habit → Habit) (habit : Habit)
    (hfind : HabitRepository.findByIdAndUser habits habitId userId = some habit)
    (hf_id : ∀ g, (f g).id = g.id) (hf_user : ∀ g, (f g).userId = g.userId)
    (hf_del : ∀ g, (f g).deletedAt = g.deletedAt) :
    HabitRepository.findByIdAndUser (HabitRepository.update habits habitId f) habitId userId
      = some (f habit) := by
  unfold HabitRepository.findByIdAndUser HabitRepository.update at *
  induction habits with
  | nil => simp at hfind
  | cons g gs ih =>
    by_cases hid : (g.id == habitId) = true <;>
      by_cases huser : (g.userId == userId) = true <;>
      by_cases hdel : g.deletedAt.isNone = true <;>
      simp only [List.map_cons, List.find?_cons, hid, huser, hdel, hf_id, hf_user, hf_del,
        if_true, if_false, Bool.and_true, Bool.and_false, Bool.and_self, Bool.true_and,
        Bool.false_and, Bool.not_eq_true, Bool.false_eq_true, reduceIte] at hfind ⊢
    · simp only [Option.some.injEq] at hfind
      subst hfind
      rfl
    all_goals exact ih hfind

/-! ### Field-preservation facts about the partial update object -/

theorem applyHabitUpdates_id (dto : UpdateHabitDto) (h : Habit) :
    (applyHabitUpdates dto h).id = h.id := by
  rcases dto with ⟨n, d, ft, fd, dm, st, tz⟩
  unfold applyHabitUpdates
  cases n <;> cases d <;> cases ft <;> cases fd <;> cases dm <;> cases st <;> rfl

theorem applyHabitUpdates_userId (dto : UpdateHabitDto) (h : Habit) :
    (applyHabitUpdates dto h).userId = h.userId := by
  rcases dto with ⟨n, d, ft, fd, dm, st, tz⟩
  unfold applyHabitUpdates
  cases n <;> cases d <;> cases ft <;> cases fd <;> cases dm <;> cases st <;> rfl

theorem applyHabitUpdates_deletedAt (dto : UpdateHabitDto) (h : Habit) :
    (applyHabitUpdates dto h).deletedAt = h.deletedAt := by
  rcases dto with ⟨n, d, ft, fd, dm, st, tz⟩
  unfold applyHabitUpdates
  cases n <;> cases d <;> cases ft <;> cases fd <;> cases dm <;> cases st <;> rfl

theorem applyHabitUpdates_nextOccurrenceAt (dto : UpdateHabitDto) (h : Habit) :
    (applyHabitUpdates dto h).nextOccurrenceAt = h.nextOccurrenceAt := by
  rcases dto with ⟨n, d, ft, fd, dm, st, tz⟩
  unfold applyHabitUpdates
  cases n <;> cases d <;> cases ft <;> cases fd <;> cases dm <;> cases st <;> rfl

theorem applyHabitUpdates_status (dto : UpdateHabitDto) (h : Habit) :
    (applyHabitUpdates dto h).status = dto.status.getD h.status := by
  rcases dto with ⟨n, d, ft, fd, dm, st, tz⟩
  unfold applyHabitUpdates
  cases n <;> cases d <;> cases ft <;> cases fd <;> cases dm <;> cases st <;> rfl


/-- C3 (counterexample): updating the habit's status to PAUSED through
`updateHabit` (no frequency change) leaves the persisted
`nextOccurrenceAt` at its old non-null value instead of clearing it, so
the returned row has `status = PAUSED` and `nextOccurrenceAt = some 420`. -/
theorem C3_counterexample :
    updateHabit { habits := [dueDailyHabit], completions := [] } "user-1" "habit-1"
        pauseDto 0
      = .ok ({ habits := [{ dueDailyHabit with status := HabitStatus.PAUSED }],
               completions := [] },
             { dueDailyHabit with status := HabitStatus.PAUSED }) ∧
    ({ dueDailyHabit with status := HabitStatus.PAUSED } : Habit).status
      ≠ HabitStatus.ACTIVE ∧
    ({ dueDailyHabit with status := HabitStatus.PAUSED } : Habit).nextOccurrenceAt
      = some 420 := by
  refine ⟨by decide, by decide, rfl⟩

/-- When the first non-deleted row with the id belongs to the caller, the
owner-scoped lookup returns that same row. -/
theorem findByIdAndUser_eq_findById (habits : List Habit) (habitId userId : String)
    (habit : Habit)
    (hfind : HabitRepository.findById habits habitId = some habit)
    (huser : habit.userId = userId) :
    HabitRepository.findByIdAndUser habits habitId userId = some habit := by
  unfold HabitRepository.findById HabitRepository.findByIdAndUser at *
  induction habits with
  | nil => simp at hfind
  | cons g gs ih =>
    by_cases hid : (g.id == habitId) = true <;>
      by_cases hdel : g.deletedAt.isNone = true <;>
      simp only [List.find?_cons, hid, hdel, if_true, if_false, Bool.and_true,
        Bool.and_false, Bool.and_self, Bool.true_and, Bool.false_and, Bool.not_eq_true,
        Bool.false_eq_true, reduceIte] at hfind ⊢
    · simp only [Option.some.injEq] at hfind
      subst hfind
      simp [huser, hdel, hid]
    all_goals exact ih hfind

/-- C3 (amended): an `updateHabit` call that does not touch the frequency
fields — in particular a pure status change to PAUSED or ARCHIVED — never
clears or changes `nextOccurrenceAt`: the returned habit keeps the old
value (and carries the requested status).  Clearing happens only in
`pauseHabit`. -/
theorem C3_update_keeps_nextOccurrenceAt
    (st : AppState) (userId habitId : String) (dto : UpdateHabitDto) (now : Int)
    (habit : Habit) (st2 : AppState) (final : Habit)
    (hfind : HabitRepository.findById st.habits habitId = some habit)
    (huser : habit.userId = userId)
    (hft : dto.frequencyType = none) (hfd : dto.frequencyDetails = none)
    (hok : updateHabit st userId habitId dto now = .ok (st2, final)) :
    final.nextOccurrenceAt = habit.nextOccurrenceAt ∧
    final.status = dto.status.getD habit.status := by
  unfold updateHabit at hok
  rw [findByIdAndUser_eq_findById st.habits habitId userId habit hfind huser] at hok
  dsimp only at hok
  split at hok
  · simp at hok
  split at hok
  · simp at hok
  split at hok
  · simp at hok
  split at hok
  · simp at hok
  rw [findById_update_of_found st.habits habitId (applyHabitUpdates dto) habit hfind
    (applyHabitUpdates_id dto) (applyHabitUpdates_deletedAt dto)] at hok
  dsimp only at hok
  rw [hft, hfd] at hok
  simp only [Option.isSome_none, Bool.or_self, Bool.false_and, Bool.false_eq_true,
    reduceIte, if_false] at hok
  rw [findById_update_of_found st.habits habitId (applyHabitUpdates dto) habit hfind
    (applyHabitUpdates_id dto) (applyHabitUpdates_deletedAt dto)] at hok
  simp only [Except.ok.injEq, Prod.mk.injEq] at hok
  obtain ⟨-, rfl⟩ := hok
  exact ⟨applyHabitUpdates_nextOccurrenceAt dto habit, applyHabitUpdates_status dto habit⟩


theorem C3_update_keeps_nextOccurrenceAt_witness :
    (HabitRepository.findById [dueDailyHabit] "habit-1" = some dueDailyHabit ∧
      dueDailyHabit.userId = "user-1" ∧
      pauseDto.frequencyType = none ∧ pauseDto.frequencyDetails = none ∧
      updateHabit { habits := [dueDailyHabit], completions := [] } "user-1" "habit-1"
          pauseDto 0
        = .ok ({ habits := [{ dueDailyHabit with status := HabitStatus.PAUSED }],
                 completions := [] },
               { dueDailyHabit with status := HabitStatus.PAUSED })) ∧
    (({ dueDailyHabit with status := HabitStatus.PAUSED } : Habit).nextOccurrenceAt
        = dueDailyHabit.nextOccurrenceAt ∧
      ({ dueDailyHabit with status := HabitStatus.PAUSED } : Habit).status
        = pauseDto.status.getD dueDailyHabit.status) :=
  ⟨⟨by decide, rfl, rfl, rfl, by decide⟩,
    C3_update_keeps_nextOccurrenceAt { habits := [dueDailyHabit], completions := [] }
      "user-1" "habit-1" pauseDto 0 dueDailyHabit
      { habits := [{ dueDailyHabit with status := HabitStatus.PAUSED }], completions := [] }
      { dueDailyHabit with status := HabitStatus.PAUSED }
      (by decide) rfl rfl rfl (by decide)⟩


/-! ### Completion-list lemmas -/

theorem find?_append_none {α : Type} {p : α → Bool} {l1 : List α}
    (h : ∀ a ∈ l1, p a = false) (l2 : List α) :
    (l1 ++ l2).find? p = l2.find? p := by
  induction l1 with
  | nil => simp
  | cons a l ih =>
    have ha := h a (List.mem_cons_self a l)
    simp only [List.cons_append, List.find?_cons, ha]
    exact ih fun b hb => h b (List.mem_cons_of_mem a hb)

theorem markUndone_no_match (completions : List HabitCompletion) (cid : String) (now : Int)
    (h : ∀ c ∈ completions, (c.id == cid) = false) :
    HabitCompletionRepository.markUndone completions cid now = completions := by
  unfold HabitCompletionRepository.markUndone
  induction completions with
  | nil => rfl
  | cons c l ih =>
    have hc := h c (List.mem_cons_self c l)
    simp only [List.map_cons, hc, Bool.false_eq_true, reduceIte, List.cons.injEq, true_and]
    exact ih fun b hb => h b (List.mem_cons_of_mem c hb)

/-- C4: a `markComplete` / `undoCompletion` / `markComplete` round trip on
the same date succeeds end to end: undoing (setting `undoneAt`) removes
the duplicate-completion CONFLICT because the duplicate check counts only
completions with null `undoneAt`. -/
theorem C4_mark_undo_mark_round_trip
    (st : AppState) (habit : Habit) (habitId userId freshId1 freshId2 : String)
    (dto : CreateCompletionDto) (now1 now2 now3 : Int)
    (hfind : HabitRepository.findByIdAndUser st.habits habitId userId = some habit)
    (hactive : habit.status = HabitStatus.ACTIVE)
    (hdate1 : dayStart dto.scheduledFor ≤ dayStart now1)
    (hdate3 : dayStart dto.scheduledFor ≤ dayStart now3)
    (hnodup : HabitCompletionRepository.isCompletedForDate st.completions habitId
      dto.scheduledFor = false)
    (hfresh : ∀ c ∈ st.completions, (c.id == freshId1) = false)
    (hwindow : now2 - now1 ≤ UNDO_WINDOW_HOURS * 60) :
    ∃ st1 c1 st2 st3 c3,
      markComplete st habitId userId dto now1 freshId1 = .ok (st1, c1) ∧
      undoCompletion st1 c1.id userId now2 = .ok st2 ∧
      markComplete st2 habitId userId dto now3 freshId2 = .ok (st3, c3) := by
  -- the inserted completion and the habit store after the first call
  set c1 : HabitCompletion :=
    { id := freshId1, habitId := habitId, userId := userId,
      completedAt := now1, scheduledFor := dto.scheduledFor,
      notes := trimOrNull dto.notes, createdAt := now1, undoneAt := none } with hc1
  set habits1 : List Habit :=
    (match getNextOccurrence habit now1 with
      | some nextOccurrence =>
        HabitRepository.update st.habits habitId
          fun h => { h with nextOccurrenceAt := some nextOccurrence }
      | none => st.habits) with hhabits1
  have h1 : markComplete st habitId userId dto now1 freshId1
      = .ok ({ habits := habits1, completions := st.completions ++ [c1] }, c1) := by
    unfold markComplete
    rw [hfind]
    dsimp only
    rw [if_neg (by simp [hactive])]
    rw [if_neg (not_lt.mpr hdate1)]
    rw [if_neg (by simp [hnodup])]
  -- the habit is still found, still ACTIVE, after the nextOccurrenceAt write
  obtain ⟨habit1, hfind1, hstatus1⟩ :
      ∃ habit1, HabitRepository.findByIdAndUser habits1 habitId userId = some habit1 ∧
        habit1.status = habit.status := by
    rw [hhabits1]
    cases hno : getNextOccurrence habit now1 with
    | none => exact ⟨habit, hfind, rfl⟩
    | some nxt =>
      exact ⟨_, findByIdAndUser_update_of_found st.habits habitId userId _ habit hfind
        (fun g => rfl) (fun g => rfl) (fun g => rfl), rfl⟩
  -- the undo finds exactly the inserted completion
  have hfindc : HabitCompletionRepository.findByIdAndUser (st.completions ++ [c1])
      freshId1 userId = some c1 := by
    unfold HabitCompletionRepository.findByIdAndUser
    rw [find?_append_none (fun c hc => by simp [hfresh c hc]) [c1]]
    simp [hc1]
  set c1u : HabitCompletion := { c1 with undoneAt := some now2 } with hc1u
  have hmarkundone : HabitCompletionRepository.markUndone (st.completions ++ [c1])
      freshId1 now2 = st.completions ++ [c1u] := by
    unfold HabitCompletionRepository.markUndone
    rw [List.map_append]
    have hl : HabitCompletionRepository.markUndone st.completions freshId1 now2
        = st.completions := markUndone_no_match st.completions freshId1 now2 hfresh
    unfold HabitCompletionRepository.markUndone at hl
    rw [hl]
    simp [hc1, hc1u]
  have h2 : undoCompletion { habits := habits1, completions := st.completions ++ [c1] }
      c1.id userId now2
      = .ok { habits := habits1, completions := st.completions ++ [c1u] } := by
    unfold undoCompletion
    dsimp only [hc1]
    rw [hfindc]
    dsimp only
    rw [if_neg (by simp [hc1])]
    rw [if_neg (by unfold UNDO_WINDOW_HOURS at hwindow ⊢; simp [hc1]; omega)]
    rw [hmarkundone]
  -- the second markComplete sees no non-undone completion for the date
  have hnodup2 : HabitCompletionRepository.isCompletedForDate (st.completions ++ [c1u])
      habitId dto.scheduledFor = false := by
    unfold HabitCompletionRepository.isCompletedForDate at hnodup ⊢
    rw [List.any_append, hnodup]
    simp [hc1u]
  have h3 : markComplete { habits := habits1, completions := st.completions ++ [c1u] }
      habitId userId dto now3 freshId2
      = .ok ({ habits :=
                (match getNextOccurrence habit1 now3 with
                  | some nextOccurrence =>
                    HabitRepository.update habits1 habitId
                      fun h => { h with nextOccurrenceAt := some nextOccurrence }
                  | none => habits1),
               completions := (st.completions ++ [c1u]) ++
                 [{ id := freshId2, habitId := habitId, userId := userId,
                    completedAt := now3, scheduledFor := dto.scheduledFor,
                    notes := trimOrNull dto.notes, createdAt := now3, undoneAt := none }] },
             { id := freshId2, habitId := habitId, userId := userId,
               completedAt := now3, scheduledFor := dto.scheduledFor,
               notes := trimOrNull dto.notes, createdAt := now3, undoneAt := none }) := by
    unfold markComplete
    rw [hfind1]
    dsimp only
    rw [if_neg (by simp [hstatus1, hactive])]
    rw [if_neg (not_lt.mpr hdate3)]
    rw [if_neg (by simp [hnodup2])]
  exact ⟨_, _, _, _, _, h1, h2, h3⟩


theorem C4_mark_undo_mark_round_trip_witness :
    (HabitRepository.findByIdAndUser [dailyHabit] "habit-1" "user-1" = some dailyHabit ∧
      dailyHabit.status = HabitStatus.ACTIVE ∧
      dayStart 0 ≤ dayStart 480 ∧ dayStart 0 ≤ dayStart 700 ∧
      HabitCompletionRepository.isCompletedForDate [] "habit-1" 0 = false ∧
      (600 : Int) - 480 ≤ UNDO_WINDOW_HOURS * 60) ∧
    ∃ st1 c1 st2 st3 c3,
      markComplete { habits := [dailyHabit], completions := [] } "habit-1" "user-1"
          { scheduledFor := 0 } 480 "comp-1" = .ok (st1, c1) ∧
      undoCompletion st1 c1.id "user-1" 600 = .ok st2 ∧
      markComplete st2 "habit-1" "user-1" { scheduledFor := 0 } 700 "comp-2"
        = .ok (st3, c3) :=
  ⟨⟨by decide, rfl, by decide, by decide, by decide, by decide⟩,
    C4_mark_undo_mark_round_trip { habits := [dailyHabit], completions := [] } dailyHabit
      "habit-1" "user-1" "comp-1" "comp-2" { scheduledFor := 0 } 480 600 700
      (by decide) rfl (by decide) (by decide) (by decide)
      (fun c hc => absurd hc (List.not_mem_nil c)) (by decide)⟩


/-- C6: with the habit found, owned and ACTIVE, `markComplete` fails with
the future-date `BadRequestException` (the INVALID_INPUT kind) exactly
when the scheduled calendar date is strictly after today's calendar date;
a same-day or past date never produces that failure.  An error return
carries no state, so nothing is persisted on failure. -/
theorem C6_markComplete_future_date
    (st : AppState) (habit : Habit) (habitId userId freshId : String)
    (dto : CreateCompletionDto) (now : Int)
    (hfind : HabitRepository.findByIdAndUser st.habits habitId userId = some habit)
    (hactive : habit.status = HabitStatus.ACTIVE) :
    (dayStart now < dayStart dto.scheduledFor →
      markComplete st habitId userId dto now freshId
        = .error (.badRequest "Cannot complete a habit for a future date")) ∧
    (dayStart dto.scheduledFor ≤ dayStart now →
      markComplete st habitId userId dto now freshId
        ≠ .error (.badRequest "Cannot complete a habit for a future date")) := by
  unfold markComplete
  rw [hfind]
  dsimp only
  rw [if_neg (by simp [hactive])]
  constructor
  · intro hfut
    rw [if_pos hfut]
  · intro hpast
    rw [if_neg (not_lt.mpr hpast)]
    by_cases hdup : HabitCompletionRepository.isCompletedForDate st.completions habitId
        dto.scheduledFor = true
    · rw [if_pos hdup]
      simp
    · rw [if_neg hdup]
      simp

theorem C6_markComplete_future_date_witness :
    (HabitRepository.findByIdAndUser [dailyHabit] "habit-1" "user-1" = some dailyHabit ∧
      dailyHabit.status = HabitStatus.ACTIVE ∧ dayStart 0 < dayStart 7200) ∧
    markComplete { habits := [dailyHabit], completions := [] } "habit-1" "user-1"
        { scheduledFor := 7200 } 0 "comp-1"
      = .error (.badRequest "Cannot complete a habit for a future date") :=
  ⟨⟨by decide, rfl, by decide⟩,
    (C6_markComplete_future_date { habits := [dailyHabit], completions := [] } dailyHabit
      "habit-1" "user-1" "comp-1" { scheduledFor := 7200 } 0 (by decide) rfl).1 (by decide)⟩

/-- C7: with the completion found, owned and not yet undone,
`undoCompletion` fails with the undo-window `BadRequestException` (the
INVALID_STATE kind) exactly when `now - completedAt` exceeds 24 hours; in
that case the error return carries no state, so `undoneAt` stays null.
Within the window it succeeds, setting `undoneAt` by an in-place update
that keeps every record (same list length — never a hard delete). -/
theorem C7_undo_window
    (st : AppState) (completion : HabitCompletion) (completionId userId : String)
    (now : Int)
    (hfind : HabitCompletionRepository.findByIdAndUser st.completions completionId userId
      = some completion)
    (hnotundone : completion.undoneAt = none) :
    (UNDO_WINDOW_HOURS * 60 < now - completion.completedAt →
      undoCompletion st completionId userId now
        = .error (.badRequest "Cannot undo completion after 24 hours")) ∧
    (now - completion.completedAt ≤ UNDO_WINDOW_HOURS * 60 →
      undoCompletion st completionId userId now
        = .ok { st with completions :=
            HabitCompletionRepository.markUndone st.completions completionId now } ∧
      (HabitCompletionRepository.markUndone st.completions completionId now).length
        = st.completions.length) := by
  unfold undoCompletion
  rw [hfind]
  dsimp only
  rw [if_neg (by simp [hnotundone])]
  constructor
  · intro hlate
    rw [if_pos hlate]
  · intro hin
    rw [if_neg (not_lt.mpr hin)]
    exact ⟨rfl, List.length_map _ _⟩

theorem C7_undo_window_witness :
    (HabitCompletionRepository.findByIdAndUser [freshCompletion] "comp-1" "user-1"
        = some freshCompletion ∧
      freshCompletion.undoneAt = none ∧
      UNDO_WINDOW_HOURS * 60 < (1500 : Int) - freshCompletion.completedAt) ∧
    undoCompletion { habits := [], completions := [freshCompletion] } "comp-1" "user-1" 1500
      = .error (.badRequest "Cannot undo completion after 24 hours") :=
  ⟨⟨by decide, rfl, by decide⟩,
    (C7_undo_window { habits := [], completions := [freshCompletion] } freshCompletion
      "comp-1" "user-1" 1500 (by decide) rfl).1 (by decide)⟩

/-- C8 (counterexample): pausing or resuming an ARCHIVED habit throws
`ConflictException` — the same exception class the completion flow uses
for a duplicate completion — not a distinct INVALID_STATE kind; and
completing a paused habit throws `BadRequestException`, the same class as
the INVALID_INPUT future-date failure.  The four spec kinds are therefore
not all mutually distinguishable by error kind. -/
theorem C8_counterexample :
    pauseHabit { habits := [archivedHabit], completions := [] } "user-1" "habit-1"
      = .error (.conflict "Cannot pause an archived habit") ∧
    resumeHabit { habits := [archivedHabit], completions := [] } "user-1" "habit-1" 0
      = .error (.conflict "Cannot resume an archived habit") ∧
    errorClass (.conflict "Cannot pause an archived habit")
      = errorClass (.conflict "Habit already completed for this date") ∧
    markComplete { habits := [pausedHabit], completions := [] } "habit-1" "user-1"
        { scheduledFor := 0 } 0 "comp-1"
      = .error (.badRequest "Cannot complete a paused or archived habit") ∧
    errorClass (.badRequest "Cannot complete a paused or archived habit")
      = errorClass (.badRequest "Cannot complete a habit for a future date") := by
  decide

/-- C8 (amended): pausing or resuming an ARCHIVED habit fails with
`ConflictException` — the class NestJS maps to CONFLICT and the same
class raised for a duplicate completion — while the INVALID_STATE-type
completion failures are `BadRequestException`s, the class of
INVALID_INPUT failures.  NOT_FOUND remains a distinct class. -/
theorem C8_archived_conflict_class
    (st : AppState) (habitId userId : String) (now : Int) (habit : Habit)
    (hfind : HabitRepository.findByIdAndUser st.habits habitId userId = some habit)
    (harch : habit.status = HabitStatus.ARCHIVED) :
    pauseHabit st userId habitId = .error (.conflict "Cannot pause an archived habit") ∧
    resumeHabit st userId habitId now
      = .error (.conflict "Cannot resume an archived habit") ∧
    errorClass (.conflict "Cannot pause an archived habit")
      = errorClass (.conflict "Habit already completed for this date") ∧
    errorClass (.notFound "Habit not found") ≠ ErrorClass.conflictClass := by
  refine ⟨?_, ?_, rfl, by decide⟩
  · unfold pauseHabit
    rw [hfind]
    dsimp only
    rw [if_neg (by simp [harch]), if_pos harch]
  · unfold resumeHabit
    rw [hfind]
    dsimp only
    rw [if_neg (by simp [harch]), if_pos harch]

theorem C8_archived_conflict_class_witness :
    (HabitRepository.findByIdAndUser [archivedHabit] "habit-1" "user-1"
        = some archivedHabit ∧
      archivedHabit.status = HabitStatus.ARCHIVED) ∧
    pauseHabit { habits := [archivedHabit], completions := [] } "user-1" "habit-1"
      = .error (.conflict "Cannot pause an archived habit") :=
  ⟨⟨by decide, rfl⟩,
    (C8_archived_conflict_class { habits := [archivedHabit], completions := [] }
      "habit-1" "user-1" 0 archivedHabit (by decide) rfl).1⟩

/-- C9 (counterexample): a WEEKLY structure violating two rules (empty
day set and malformed time) is rejected with only the first rule's
message; the time-format rule, shown independently violated by the same
time value, is not reported. -/
theorem C9_counterexample :
    validateFrequency HabitFrequencyType.WEEKLY
        (some { days := some [], time := some "9:99" })
      = .error "At least one day must be selected for weekly habits" ∧
    validateFrequency HabitFrequencyType.WEEKLY
        (some { days := some [1], time := some "9:99" })
      = .error "Time must be in HH:mm format" ∧
    "At least one day must be selected for weekly habits"
      ≠ "Time must be in HH:mm format" := by
  refine ⟨by decide, by decide, by decide⟩

/-- C9 (amended): the validator throws on the first violated rule in its
fixed check order: a WEEKLY structure with an empty day set is rejected
with the day-set message alone, whatever other rules (time presence or
format) the structure also violates. -/
theorem C9_first_violation_only (time : Option String) (count : Option Int)
    (unit : Option String) :
    validateFrequency HabitFrequencyType.WEEKLY
        (some { days := some [], time := time, count := count, unit := unit })
      = .error "At least one day must be selected for weekly habits" := by
  unfold validateFrequency validateWeeklyFrequency
  simp

/-- C10: `markComplete` never consults `isScheduledForDate`: for any
ACTIVE owned habit, whatever its recurrence rule, a completion for any
non-future date with no duplicate is accepted. -/
theorem C10_markComplete_ignores_schedule
    (st : AppState) (habit : Habit) (habitId userId freshId : String)
    (dto : CreateCompletionDto) (now : Int)
    (hfind : HabitRepository.findByIdAndUser st.habits habitId userId = some habit)
    (hactive : habit.status = HabitStatus.ACTIVE)
    (hdate : dayStart dto.scheduledFor ≤ dayStart now)
    (hnodup : HabitCompletionRepository.isCompletedForDate st.completions habitId
      dto.scheduledFor = false) :
    ∃ st2 c, markComplete st habitId userId dto now freshId = .ok (st2, c) ∧
      c.scheduledFor = dto.scheduledFor ∧ c.undoneAt = none := by
  have hmc : markComplete st habitId userId dto now freshId
      = .ok ({ habits :=
                (match getNextOccurrence habit now with
                  | some nextOccurrence =>
                    HabitRepository.update st.habits habitId
                      fun h => { h with nextOccurrenceAt := some nextOccurrence }
                  | none => st.habits),
               completions := st.completions ++
                 [{ id := freshId, habitId := habitId, userId := userId,
                    completedAt := now, scheduledFor := dto.scheduledFor,
                    notes := trimOrNull dto.notes, createdAt := now, undoneAt := none }] },
             { id := freshId, habitId := habitId, userId := userId,
               completedAt := now, scheduledFor := dto.scheduledFor,
               notes := trimOrNull dto.notes, createdAt := now, undoneAt := none }) := by
    unfold markComplete
    rw [hfind]
    dsimp only
    rw [if_neg (by simp [hactive])]
    rw [if_neg (not_lt.mpr hdate)]
    rw [if_neg (by simp [hnodup])]
  exact ⟨_, _, hmc, rfl, rfl⟩

theorem C10_markComplete_ignores_schedule_witness :
    (HabitRepository.findByIdAndUser [mwfHabit] "habit-1" "user-1" = some mwfHabit ∧
      mwfHabit.status = HabitStatus.ACTIVE ∧
      dayStart 2880 ≤ dayStart 3480 ∧
      HabitCompletionRepository.isCompletedForDate [] "habit-1" 2880 = false ∧
      isScheduledForDate mwfHabit 2880 = false) ∧
    ∃ st2 c,
      markComplete { habits := [mwfHabit], completions := [] } "habit-1" "user-1"
          { scheduledFor := 2880 } 3480 "comp-1" = .ok (st2, c) ∧
      c.scheduledFor = 2880 ∧ c.undoneAt = none :=
  ⟨⟨by decide, rfl, by decide, by decide, by decide⟩,
    C10_markComplete_ignores_schedule { habits := [mwfHabit], completions := [] } mwfHabit
      "habit-1" "user-1" "comp-1" { scheduledFor := 2880 } 3480
      (by decide) rfl (by decide) (by decide)⟩


/-- C5: DAILY habit completed on days 1, 2 and 3, missed on day 4,
completed on day 5 (= today): the longest streak is 3 and the current
streak is 1. -/
theorem C5_streak_scenario :
    calculateCurrentStreak streakState "habit-1" "user-1" (1440 * 5 + 600) = 1 ∧
    calculateLongestStreak streakState "habit-1" "user-1" = 3 := by
  constructor
  · simp [calculateCurrentStreak, streakState, dailyHabit, streakCompletion,
      HabitRepository.findByIdAndUser, HabitCompletionRepository.getCompletionsForStreak,
      sortBy, sortedInsertBy, currentStreakWalk, currentStreakInner,
      isScheduledForDate, dayOf, dowOf, dayStart, List.find?]
  · decide

end HabitFlow
